import Mathlib

/-!
Shallow embedding of the skippy-core scheduler (Python) in Lean 4.

Python strings are modelled as lists of characters (`Str`), Python dicts as
insertion-ordered association lists, Python exceptions as `Except` / `Option`
results.  Integer quantities (`cpu_millis`, `memory`, image sizes, bandwidth)
are modelled as `Int` / `Nat`; `int(x / y)` on non-negative integers is
truncating division, modelled with `Int.tdiv` (respectively `Nat` division).
-/

/-- Python `str`, modelled as a list of characters. -/
abbrev Str := List Char

/-- Python `dict` lookup `d[k]` / `d.get(k)`: first binding of `k` in an
insertion-ordered association list. -/
def lookupA {α : Type} (l : List (Str × α)) (k : Str) : Option α :=
  (l.find? (fun p => p.1 == k)).map (·.2)

/-- Python `dict.get(k, default)`. -/
def lookupD {α : Type} (l : List (Str × α)) (k : Str) (d : α) : α :=
  (lookupA l k).getD d

/-- Python `k in d` for a dict. -/
def hasKey {α : Type} (l : List (Str × α)) (k : Str) : Bool :=
  l.any (fun p => p.1 == k)

/-- Python `d[k] = v`: replace the value in place when the key exists
(insertion order kept), append the binding otherwise. -/
def setA {α : Type} (l : List (Str × α)) (k : Str) (v : α) : List (Str × α) :=
  if hasKey l k then l.map (fun p => if p.1 == k then (k, v) else p)
  else l ++ [(k, v)]

/-- The keys of a dict, in insertion order. -/
def keysA {α : Type} (l : List (Str × α)) : List Str :=
  l.map (·.1)

/-- Python `str.rfind(c)`: index of the last occurrence of `c`, `-1` if
absent (`utils.py`, used by `normalize_image_name`). -/
def rfind : Str → Char → Int
  | [], _ => -1
  | a :: l, c =>
    let r := rfind l c
    if r ≥ 0 then r + 1 else if a = c then 0 else -1

/-- `utils.default_image_tag` (`utils.py` line 7). -/
def default_image_tag : Str := "latest".data

/-- `utils.normalize_image_name` (`utils.py` lines 10-21): appends
`":latest"` when the last `':'` does not occur after the last `'/'`. -/
def normalize_image_name (image_name : Str) : Str :=
  if rfind image_name ':' ≤ rfind image_name '/' then
    image_name ++ ':' :: default_image_tag
  else image_name

/-- `utils.__size_conversions` (`utils.py` lines 24-37). -/
def size_conversions : List (Str × Nat) :=
  [("K".data, 10 ^ 3), ("M".data, 10 ^ 6), ("G".data, 10 ^ 9),
   ("T".data, 10 ^ 12), ("P".data, 10 ^ 15), ("E".data, 10 ^ 18),
   ("Ki".data, 2 ^ 10), ("Mi".data, 2 ^ 20), ("Gi".data, 2 ^ 30),
   ("Ti".data, 2 ^ 40), ("Pi".data, 2 ^ 50), ("Ei".data, 2 ^ 60)]

/-- ASCII decimal digit test, Python's `[0-9]`. -/
def isDig (c : Char) : Bool := '0' ≤ c ∧ c ≤ '9'

/-- ASCII letter test, Python's `[a-zA-Z]`. -/
def isAlph (c : Char) : Bool := ('a' ≤ c ∧ c ≤ 'z') ∨ ('A' ≤ c ∧ c ≤ 'Z')

/-- Python `int(s)` on a string of decimal digits. -/
def digitsToNat (l : Str) : Nat :=
  l.foldl (fun a c => a * 10 + (c.toNat - '0'.toNat)) 0

/-- `utils.parse_size_string` (`utils.py` lines 42-52).  The pattern
`([0-9]+)([a-zA-Z]*)` is applied with `re.match`, which anchors at the start
only: group 1 is the maximal leading digit run (it must be non-empty, else
`ValueError`), group 2 the maximal letter run following it, and any trailing
characters are ignored.  The code always takes the two-group branch and
multiplies by the suffix factor, defaulting to 1. -/
def parse_size_string (s : Str) : Except Unit Nat :=
  let number := s.takeWhile isDig
  if number.isEmpty then Except.error ()
  else
    let unit := (s.drop number.length).takeWhile isAlph
    Except.ok (digitsToNat number * lookupD size_conversions unit 1)

/-- `model.ImageState` (`model.py` lines 4-16): per-architecture sizes in
bytes plus the node count. -/
structure ImageState where
  size : List (Str × Nat)
  num_nodes : Nat
deriving DecidableEq, Repr

/-- `model.ResourceRequirements.default_milli_cpu_request` (`model.py`). -/
def default_milli_cpu_request : Int := 100

/-- `model.ResourceRequirements.default_mem_request` (`model.py`). -/
def default_mem_request : Int := 200 * 1024 * 1024

/-- `model.Capacity` (`model.py` lines 80-90). -/
structure Capacity where
  cpu_millis : Int
  memory : Int
deriving DecidableEq, Repr

/-- `model.Container` (`model.py` lines 39-47): the image string and the
`resources.requests` dict. -/
structure Container where
  image : Str
  requests : List (Str × Int)
deriving DecidableEq, Repr

/-- `model.Pod` with its `PodSpec` inlined (`model.py` lines 50-77). -/
structure Pod where
  name : Str
  containers : List Container
  labels : List (Str × Str)
deriving DecidableEq, Repr

/-- `model.Node` (`model.py` lines 93-113).  `allocatable` is the mutable
remaining capacity; `pods` the pods placed so far. -/
structure Node where
  name : Str
  allocatable : Capacity
  labels : List (Str × Str)
  pods : List Pod
deriving DecidableEq, Repr

/-- `model.SchedulingResult` (`model.py` lines 116-119). -/
structure SchedulingResult where
  suggested_host : Option Node
  feasible_nodes : Nat
  needed_images : Option (List Str)
deriving DecidableEq, Repr

/-- The mutable state of `clustercontext.ClusterContext`.  `image_states`
maps normalized image names to image states (an entry may hold Python's
`None`, hence `Option`); `images_on_nodes` maps a node name to that node's
image cache.  In the Python code the cache values alias the `ImageState`
objects owned by `image_states`; here the cache stores, for each raw image
key, the normalized name that resolves the shared record in `image_states`.
`bandwidth` holds bytes/second (`clustercontext.py` lines 9-21). -/
structure ClusterState where
  image_states : List (Str × Option ImageState)
  images_on_nodes : List (Str × List (Str × Str))
  bandwidth : List (Str × List (Str × Nat))
  nodes : List Node
deriving DecidableEq, Repr

/-- Outcomes of the fallible context operations: a failed dict index
(`KeyError`), the failed `raise NotImplemented` in `retrieve_image_state`,
and `ZeroDivisionError`. -/
inductive CtxError where
  | keyError
  | retrieveFailed
  | zeroDivision
deriving DecidableEq, Repr

/-- `ClusterContext.get_image_state` (`clustercontext.py` lines 126-133):
`self.image_states[image_name]` raises `KeyError` when the key is absent;
only a key explicitly bound to `None` reaches `retrieve_image_state`, whose
default body fails (`clustercontext.py` line 136). -/
def get_image_state (states : List (Str × Option ImageState)) (image_name : Str) :
    Except CtxError ImageState :=
  match lookupA states image_name with
  | none => Except.error CtxError.keyError
  | some none => Except.error CtxError.retrieveFailed
  | some (some st) => Except.ok st

/-- `ClusterContext.get_dl_bandwidth` (`clustercontext.py` lines 138-139):
plain dict indexing, `KeyError` when an edge is missing. -/
def get_dl_bandwidth (bw : List (Str × List (Str × Nat))) (from_node to_node : Str) :
    Except CtxError Nat :=
  match lookupA bw from_node with
  | none => Except.error CtxError.keyError
  | some row =>
    match lookupA row to_node with
    | none => Except.error CtxError.keyError
    | some b => Except.ok b

/-- One iteration step of the loop in `ClusterContext.place_pod_on_node`
(`clustercontext.py` lines 111-123), threading the context and the node
being mutated through the container list.  Each pass normalizes the image,
fetches its state (a `KeyError` propagates), increments `num_nodes`
unconditionally, stores the state into the node's cache under the raw
`container.image` key (lines 118-119 both perform this same assignment), and
subtracts the `'cpu'` and `'mem'` requests (with defaults) from
`node.allocatable`. -/
def placeLoop : List Container → ClusterState → Node → Except CtxError (ClusterState × Node)
  | [], ctx, node => Except.ok (ctx, node)
  | c :: rest, ctx, node =>
    match get_image_state ctx.image_states (normalize_image_name c.image) with
    | Except.error e => Except.error e
    | Except.ok st =>
      let st2 := { st with num_nodes := st.num_nodes + 1 }
      let cache := (lookupA ctx.images_on_nodes node.name).getD []
      let cache2 := setA cache c.image (normalize_image_name c.image)
      let ctx2 : ClusterState :=
        { ctx with
          image_states := setA ctx.image_states (normalize_image_name c.image) (some st2),
          images_on_nodes := setA ctx.images_on_nodes node.name cache2 }
      let node2 : Node :=
        { node with
          allocatable :=
            { cpu_millis := node.allocatable.cpu_millis -
                lookupD c.requests "cpu".data default_milli_cpu_request,
              memory := node.allocatable.memory -
                lookupD c.requests "mem".data default_mem_request } }
      placeLoop rest ctx2 node2

/-- `ClusterContext.place_pod_on_node` (`clustercontext.py` lines 106-124):
runs the container loop, then appends the pod to `node.pods`.  The mutated
node object is an element of the context's node list, so the context's copy
is updated in the same step; the updated node is returned alongside. -/
def place_pod_on_node (ctx : ClusterState) (pod : Pod) (node : Node) :
    Except CtxError (ClusterState × Node) :=
  match placeLoop pod.containers ctx node with
  | Except.error e => Except.error e
  | Except.ok (ctx2, node2) =>
    let node3 := { node2 with pods := node2.pods ++ [pod] }
    Except.ok
      ({ ctx2 with nodes := ctx2.nodes.map (fun m => if m.name == node.name then node3 else m) },
       node3)

/-- `predicates.PodFitsResourcesPred.passes_predicate` (`predicates.py`
lines 49-62): sums each container's `'cpu'` and `'memory'` requests (with
defaults) and checks both sums against the node's current allocatable. -/
def podFitsResources (_ctx : ClusterState) (pod : Pod) (node : Node) : Bool :=
  let requested := pod.containers.foldl
    (fun acc c =>
      (acc.1 + lookupD c.requests "cpu".data default_milli_cpu_request,
       acc.2 + lookupD c.requests "memory".data default_mem_request))
    ((0 : Int), (0 : Int))
  requested.2 ≤ node.allocatable.memory ∧ requested.1 ≤ node.allocatable.cpu_millis

/-- Python `min(scores, default=d)`. -/
def pyMin (l : List Int) (d : Int) : Int :=
  match l with
  | [] => d
  | x :: xs => xs.foldl min x

/-- Python `max(scores, default=d)`. -/
def pyMax (l : List Int) (d : Int) : Int :=
  match l with
  | [] => d
  | x :: xs => xs.foldl max x

/-- `clustercontext.ClusterContext.max_priority` (`clustercontext.py`
line 14). -/
def max_priority : Int := 10

/-- `priorities.LocalityPriority.reduce_mapped_score` (`priorities.py`
lines 223-247): all-zero vector when the max is zero, otherwise each score
`x` maps to `int(max_priority * (max - x + min) / max)`; `int()` on the
non-negative float quotient truncates, modelled with `Int.tdiv`. -/
def localityReduce (node_scores : List Int) : List Int :=
  let min_count := pyMin node_scores 0
  let max_count := pyMax node_scores 0
  if max_count = 0 then List.replicate node_scores.length 0
  else node_scores.map (fun node_count =>
    Int.tdiv (max_priority * (max_count - node_count + min_count)) max_count)

/-- The loop body of `LatencyAwareImageLocalityPriority.get_size`
(`priorities.py` lines 262-283), threading `node_arch` because the Python
code reassigns that local variable when an architecture is missing, which
then affects later iterations.  Images already in the node's cache (keyed by
normalized name) are skipped; for the rest, `get_image_state` may raise; a
missing architecture falls back to the first key of the size map
(`IndexError`, i.e. `KeyError` here, when that map is empty). -/
def getSizeLoop (states : List (Str × Option ImageState))
    (cache : List (Str × Str)) :
    List Container → Str → Nat → Except CtxError Nat
  | [], _, acc => Except.ok acc
  | c :: rest, node_arch, acc =>
    let image_name := normalize_image_name c.image
    if hasKey cache image_name then getSizeLoop states cache rest node_arch acc
    else
      match get_image_state states image_name with
      | Except.error e => Except.error e
      | Except.ok st =>
        let arch2 := if hasKey st.size node_arch then node_arch
          else match keysA st.size with
            | [] => node_arch
            | a :: _ => a
        if hasKey st.size arch2 then
          getSizeLoop states cache rest arch2 (acc + lookupD st.size arch2 0)
        else Except.error CtxError.keyError

/-- `LatencyAwareImageLocalityPriority.get_size` (`priorities.py` lines
262-283): reads the node's architecture label (`KeyError` when absent) and
sums the image sizes of the containers whose normalized image is not in the
node's cache. -/
def latencyGetSize (ctx : ClusterState) (pod : Pod) (node : Node) : Except CtxError Nat :=
  match lookupA node.labels "beta.kubernetes.io/arch".data with
  | none => Except.error CtxError.keyError
  | some node_arch =>
    getSizeLoop ctx.image_states ((lookupA ctx.images_on_nodes node.name).getD [])
      pod.containers node_arch 0

/-- `LocalityPriority.map_node_score` specialised to
`LatencyAwareImageLocalityPriority` (`priorities.py` lines 215-221 and
285-286): `int(size / bandwidth)` with the bandwidth of the edge
`registry -> node`; dividing by a zero bandwidth raises
`ZeroDivisionError`. -/
def latencyMapNodeScore (ctx : ClusterState) (pod : Pod) (node : Node) : Except CtxError Nat :=
  match latencyGetSize ctx pod node with
  | Except.error e => Except.error e
  | Except.ok size =>
    match get_dl_bandwidth ctx.bandwidth "registry".data node.name with
    | Except.error e => Except.error e
    | Except.ok bw =>
      if bw = 0 then Except.error CtxError.zeroDivision
      else Except.ok (size / bw)

/-- A priority plugin as the scheduler consumes it (`priorities.Priority`):
a per-node map step and a vector reduce step.  `Option` models an uncaught
Python exception inside the plugin. -/
structure PriorityImpl where
  mapScore : ClusterState → Pod → Node → Option Int
  reduceScore : ClusterState → Pod → List Node → List Int → Option (List Int)

/-- `Scheduler.passes_predicates` (`scheduler.py` lines 109-112):
conjunction over the scheduler's predicate list. -/
def passesPredicates (preds : List (ClusterState → Pod → Node → Bool))
    (ctx : ClusterState) (pod : Pod) (node : Node) : Bool :=
  preds.all (fun p => p ctx pod node)

/-- `Scheduler.min_feasible_nodes_to_find` (`scheduler.py` line 33). -/
def min_feasible_nodes_to_find : Int := 100

/-- `Scheduler.min_feasible_nodes_percentage_to_find` (`scheduler.py`
line 36). -/
def min_feasible_nodes_percentage_to_find : Int := 5

/-- `Scheduler.default_percentage_of_nodes_to_score` (`scheduler.py`
line 39). -/
def default_percentage_of_nodes_to_score : Int := 50

/-- `Scheduler.__num_feasible_nodes_to_find` (`scheduler.py` lines
122-140).  `num_all_nodes / 125` and `num_all_nodes * adaptive / 100` are
Python float divisions of non-negative quantities followed by `int()`
truncation; both are modelled exactly over `ℚ` with `Int.floor`. -/
def numFeasibleNodesToFind (percentage_of_nodes_to_score : Int) (num_all_nodes : Nat) : Int :=
  if num_all_nodes < min_feasible_nodes_percentage_to_find ∨
      percentage_of_nodes_to_score ≥ 100 then num_all_nodes
  else
    let adaptive_percentage : ℚ :=
      if percentage_of_nodes_to_score ≤ 0 then
        let a : ℚ := default_percentage_of_nodes_to_score - (num_all_nodes : ℚ) / 125
        if a < min_feasible_nodes_percentage_to_find then min_feasible_nodes_percentage_to_find
        else a
      else percentage_of_nodes_to_score
    let num_nodes : Int := Int.floor ((num_all_nodes : ℚ) * adaptive_percentage / 100)
    if num_nodes < min_feasible_nodes_to_find then min_feasible_nodes_to_find
    else num_nodes

/-- `islice(cycle(nodes), i, i + len(nodes))` (`scheduler.py` line 67):
the node list rotated left by `i` modulo its length. -/
def rotateFrom (nodes : List Node) (i : Nat) : List Node :=
  nodes.drop (i % nodes.length) ++ nodes.take (i % nodes.length)

/-- Python list comprehension over a fallible body: evaluates left to
right, the first exception (`none`) propagating. -/
def optionMapList {α β : Type} (f : α → Option β) : List α → Option (List β)
  | [] => some []
  | a :: l =>
    match f a with
    | none => none
    | some b =>
      match optionMapList f l with
      | none => none
      | some bs => some (b :: bs)

/-- The scoring loop of `Scheduler.schedule` (`scheduler.py` lines 77-85):
for each weighted priority, map every feasible node, reduce the vector,
weight it, and add it pointwise onto the running totals (Python's `map(add,
xs, ys)` truncates to the shorter list, hence `zipWith`).  An exception in a
plugin (`none`) propagates. -/
def scoreLoop (ctx : ClusterState) (pod : Pod) (feasible : List Node) :
    List (Int × PriorityImpl) → List Int → Option (List Int)
  | [], scored => some scored
  | (weight, priority) :: rest, scored =>
    match optionMapList (priority.mapScore ctx pod) feasible with
    | none => none
    | some mapped =>
      match priority.reduceScore ctx pod feasible mapped with
      | none => none
      | some reduced =>
        let weighted := reduced.map (· * weight)
        scoreLoop ctx pod feasible rest (List.zipWith (· + ·) weighted scored)

/-- `max(scored_named_nodes, key=itemgetter(1), default=(None, 0))`
(`scheduler.py` line 91): Python's `max` keeps the first element among
equals, replacing only on a strictly greater key. -/
def maxByScoreFirst : List (Node × Int) → Option (Node × Int)
  | [] => none
  | x :: xs => some (xs.foldl (fun best y => if y.2 > best.2 then y else best) x)

/-- `needed_images` (`scheduler.py` lines 97-100): the normalized image
names of the pod's containers that are not keys of the chosen node's cache,
in container order. -/
def neededImages (ctx : ClusterState) (pod : Pod) (host : Node) : List Str :=
  (pod.containers.filter (fun c =>
    !hasKey ((lookupA ctx.images_on_nodes host.name).getD []) (normalize_image_name c.image))).map
    (fun c => normalize_image_name c.image)

/-- `nodes.index(feasible_nodes[-1])` (`scheduler.py` line 70): first
position of an equal element (CPython compares the very object mutated by
the scheduler, so with distinct node values this is its position). -/
def indexOfNode (nodes : List Node) (n : Node) : Nat :=
  nodes.findIdx (fun m => m == n)

/-- `Scheduler.schedule` (`scheduler.py` lines 54-107).  Takes the
scheduler's configuration (predicates, weighted priorities, the configured
percentage) and its mutable cursor `last_scored_node_index`, plus the
cluster state and the pod; returns the `SchedulingResult` together with the
new cluster state and the new cursor, or `none` when an uncaught exception
escapes (a plugin failure or a `KeyError` inside `place_pod_on_node`). -/
def schedule (preds : List (ClusterState → Pod → Node → Bool))
    (priorities : List (Int × PriorityImpl)) (percentage_of_nodes_to_score : Int)
    (last_scored_node_index : Nat) (ctx : ClusterState) (pod : Pod) :
    Option (SchedulingResult × ClusterState × Nat) :=
  let nodes := ctx.nodes
  let num_of_nodes_to_find := (numFeasibleNodesToFind percentage_of_nodes_to_score nodes.length).toNat
  let feasible_nodes :=
    ((rotateFrom nodes last_scored_node_index).filter
      (passesPredicates preds ctx pod)).take num_of_nodes_to_find
  let cursor2 :=
    match feasible_nodes.getLast? with
    | some last => (indexOfNode nodes last + 1) % nodes.length
    | none => last_scored_node_index
  match scoreLoop ctx pod feasible_nodes priorities (List.replicate feasible_nodes.length 0) with
  | none => none
  | some scored_nodes =>
    match maxByScoreFirst (List.zip feasible_nodes scored_nodes) with
    | none => some (⟨none, feasible_nodes.length, none⟩, ctx, cursor2)
    | some best =>
      let needed := neededImages ctx pod best.1
      match place_pod_on_node ctx pod best.1 with
      | Except.error _ => none
      | Except.ok (ctx2, host2) =>
        some (⟨some host2, feasible_nodes.length, some needed⟩, ctx2, cursor2)

theorem rfind_ge_neg_one (x : Str) (c : Char) : -1 ≤ rfind x c := by
  induction x with
  | nil => simp [rfind]
  | cons a l ih =>
    simp only [rfind]
    split
    · omega
    · split <;> omega

theorem rfind_nonneg_iff (x : Str) (c : Char) : 0 ≤ rfind x c ↔ c ∈ x := by
  induction x with
  | nil => simp [rfind]
  | cons a l ih =>
    simp only [rfind, List.mem_cons]
    split
    · rename_i h
      constructor
      · intro _; exact Or.inr (ih.mp h)
      · intro _; omega
    · rename_i h
      split
      · rename_i ha
        simp only [le_refl, true_iff]
        exact Or.inl ha.symm
      · rename_i ha
        constructor
        · omega
        · rintro (rfl | hm)
          · exact absurd rfl ha
          · exact absurd (ih.mpr hm) h

theorem rfind_lt_length (x : Str) (c : Char) : rfind x c < x.length := by
  induction x with
  | nil => simp [rfind]
  | cons a l ih =>
    simp only [rfind, List.length_cons]
    split
    · omega
    · split <;> omega

theorem rfind_append_of_mem (x y : Str) (c : Char) (h : c ∈ y) :
    rfind (x ++ y) c = x.length + rfind y c := by
  induction x with
  | nil => simp
  | cons a l ih =>
    have hy : 0 ≤ rfind y c := (rfind_nonneg_iff y c).mpr h
    simp only [List.cons_append, rfind, List.append_eq, ih, List.length_cons]
    rw [if_pos (by omega)]
    omega

theorem rfind_append_of_not_mem (x y : Str) (c : Char) (h : c ∉ y) :
    rfind (x ++ y) c = rfind x c := by
  induction x with
  | nil =>
    simp only [List.nil_append, rfind]
    have h1 : ¬ 0 ≤ rfind y c := fun hc => h ((rfind_nonneg_iff y c).mp hc)
    have h2 : -1 ≤ rfind y c := rfind_ge_neg_one y c
    omega
  | cons a l ih =>
    simp only [List.cons_append, rfind, List.append_eq, ih]

theorem rfind_getElem (x : Str) (c : Char) (h : c ∈ x) :
    x.get? (rfind x c).toNat = some c := by
  induction x with
  | nil => simp at h
  | cons a l ih =>
    simp only [rfind]
    by_cases hl : c ∈ l
    · have h0 : 0 ≤ rfind l c := (rfind_nonneg_iff l c).mpr hl
      rw [if_pos h0]
      have : (rfind l c + 1).toNat = (rfind l c).toNat + 1 := by omega
      rw [this, List.get?_cons_succ]
      exact ih hl
    · have h0 : ¬ 0 ≤ rfind l c := fun hc => hl ((rfind_nonneg_iff l c).mp hc)
      rw [if_neg h0]
      have ha : a = c := by
        rcases List.mem_cons.mp h with h' | h'
        · exact h'.symm
        · exact absurd h' hl
      rw [if_pos ha]
      simp [ha]

theorem rfind_ne_of_mem (x : Str) (c d : Char) (hc : c ∈ x) (hne : c ≠ d) :
    rfind x c ≠ rfind x d := by
  intro heq
  have h0 : 0 ≤ rfind x d := heq ▸ (rfind_nonneg_iff x c).mpr hc
  have hd : d ∈ x := (rfind_nonneg_iff x d).mp h0
  have g1 := rfind_getElem x c hc
  have g2 := rfind_getElem x d hd
  rw [heq] at g1
  rw [g1] at g2
  exact hne (Option.some.inj g2)

/-- Claim C9: `normalize_image_name` appends `":latest"` exactly when the
last `':'` occurs before the last `'/'` or the string contains no `':'`,
returns the string unchanged otherwise, and is idempotent. -/
theorem C9_normalize_image_name_spec (x : Str) :
    (normalize_image_name x =
      if ':' ∉ x ∨ rfind x ':' < rfind x '/' then x ++ ":latest".data else x)
    ∧ normalize_image_name (normalize_image_name x) = normalize_image_name x := by
  have hcons : (":latest".data : Str) = ':' :: default_image_tag := by decide
  constructor
  · unfold normalize_image_name
    by_cases hc : ':' ∈ x
    · have hne : rfind x ':' ≠ rfind x '/' := rfind_ne_of_mem x ':' '/' hc (by decide)
      by_cases hlt : rfind x ':' < rfind x '/'
      · rw [if_pos (le_of_lt hlt), if_pos (Or.inr hlt), hcons]
      · rw [if_neg (by omega), if_neg (by tauto)]
    · have h1 : ¬ 0 ≤ rfind x ':' := fun h => hc ((rfind_nonneg_iff x ':').mp h)
      have h2 : -1 ≤ rfind x ':' := rfind_ge_neg_one x ':'
      have h3 : -1 ≤ rfind x '/' := rfind_ge_neg_one x '/'
      rw [if_pos (by omega), if_pos (Or.inl hc), hcons]
  · unfold normalize_image_name
    by_cases h : rfind x ':' ≤ rfind x '/'
    · rw [if_pos h]
      have hmem : ':' ∈ (':' :: default_image_tag : Str) := List.mem_cons_self _ _
      have e1 : rfind (x ++ ':' :: default_image_tag) ':' =
          x.length + rfind (':' :: default_image_tag) ':' :=
        rfind_append_of_mem x _ ':' hmem
      have e2 : rfind (':' :: default_image_tag) ':' = 0 := by decide
      have e3 : rfind (x ++ ':' :: default_image_tag) '/' = rfind x '/' :=
        rfind_append_of_not_mem x _ '/' (by decide)
      have e4 : rfind x '/' < x.length := rfind_lt_length x '/'
      rw [if_neg (by omega)]
    · rw [if_neg h, if_neg h]

/-- The anchored pattern `^([0-9]+)([A-Za-z]*)$` that the claim ascribes to
`parse_size_string`: the whole input must be a non-empty digit run followed
by a letter run, nothing after. -/
def anchoredSizeMatch (s : Str) : Bool :=
  let number := s.takeWhile isDig
  !number.isEmpty ∧ (s.drop number.length).all isAlph

theorem takeWhile_append_all (p : Char → Bool) (d rest : Str)
    (hd : ∀ c ∈ d, p c = true) (hr : ∀ c, rest.head? = some c → p c = false) :
    (d ++ rest).takeWhile p = d := by
  induction d with
  | nil =>
    cases rest with
    | nil => rfl
    | cons c cs =>
      have hc := hr c rfl
      simp [List.takeWhile_cons, hc]
  | cons a l ih =>
    have ha := hd a (List.mem_cons_self a l)
    have ihl := ih (fun c hc => hd c (List.mem_cons_of_mem a hc))
    simp [List.takeWhile_cons, ha, ihl]

/-- Claim C8 counterexample: `"1K2"` does not match the claim's anchored
pattern, yet `parse_size_string` accepts it and returns `1000` instead of
failing. -/
theorem C8_counterexample_1K2 :
    anchoredSizeMatch "1K2".data = false ∧
    parse_size_string "1K2".data = Except.ok 1000 := by
  constructor
  · rfl
  · rfl

/-- Claim C8 (amended): `parse_size_string` fails with the invalid-input
error exactly when the input has no leading digit, i.e. when it fails to
match `([0-9]+)([A-Za-z]*)` anchored at the start only; when the input
starts with a digit, the result is the maximal leading digit run times the
factor of the maximal letter run that follows, and any trailing characters
are ignored (so `"1K2"` is accepted with value 1000). -/
theorem C8_parse_size_string_amended (d u r : Str)
    (hd : d ≠ []) (hdall : ∀ c ∈ d, isDig c = true)
    (hu : ∀ c ∈ u, isAlph c = true)
    (hb1 : ∀ c, (u ++ r).head? = some c → isDig c = false)
    (hb2 : ∀ c, r.head? = some c → isAlph c = false) :
    (∀ s : Str, parse_size_string s = Except.error () ↔
      (∀ c, s.head? = some c → isDig c = false))
    ∧ parse_size_string (d ++ (u ++ r)) =
        Except.ok (digitsToNat d * lookupD size_conversions u 1) := by
  constructor
  · intro s
    cases s with
    | nil => simp [parse_size_string]
    | cons c cs =>
      by_cases hc : isDig c = true
      · simp [parse_size_string, List.takeWhile_cons, hc]
      · have hc' : isDig c = false := by
          cases h : isDig c
          · rfl
          · exact absurd h hc
        simp [parse_size_string, List.takeWhile_cons, hc']
  · have e1 : (d ++ (u ++ r)).takeWhile isDig = d := takeWhile_append_all isDig d (u ++ r) hdall hb1
    have e2 : (u ++ r).takeWhile isAlph = u := takeWhile_append_all isAlph u r hu hb2
    have e3 : (d ++ (u ++ r)).drop d.length = u ++ r := List.drop_left d (u ++ r)
    have hne : d.isEmpty = false := by
      cases d with
      | nil => exact absurd rfl hd
      | cons a l => rfl
    simp only [parse_size_string, e1, hne, Bool.false_eq_true, if_false, e3, e2]

/-- Witness for claim C8's amended theorem at `d = "1"`, `u = "K"`,
`r = "2"`. -/
theorem C8_amended_witness :
    (("1".data : Str) ≠ []) ∧ (∀ c ∈ "1".data, isDig c = true) ∧
    (∀ c ∈ "K".data, isAlph c = true) ∧
    (∀ c, ("K".data ++ "2".data : Str).head? = some c → isDig c = false) ∧
    (∀ c, ("2".data : Str).head? = some c → isAlph c = false) ∧
    ((∀ s : Str, parse_size_string s = Except.error () ↔
        (∀ c, s.head? = some c → isDig c = false))
      ∧ parse_size_string ("1".data ++ ("K".data ++ "2".data)) =
          Except.ok (digitsToNat "1".data * lookupD size_conversions "K".data 1)) :=
  ⟨by decide, by decide, by decide, by decide, by decide,
    C8_parse_size_string_amended "1".data "K".data "2".data
      (by decide) (by decide) (by decide) (by decide) (by decide)⟩

/-- The sampling target as the claim states it: `N` when `N < 5` or the
configured percentage is at least 100; otherwise `floor(N * pct / 100)` with
`pct` the configured percentage when positive and `max(50 - N/125, 5)`
otherwise, raised to 100 when below 100. -/
def claimTargetCount (pct : Int) (n : Nat) : Int :=
  if (n : Int) < 5 ∨ pct ≥ 100 then n
  else
    let p : ℚ := if pct > 0 then (pct : ℚ) else max (50 - (n : ℚ) / 125) 5
    let t : Int := Int.floor ((n : ℚ) * p / 100)
    if t < 100 then 100 else t

/-- Claim C6: for every total node count and configured percentage,
`Scheduler.__num_feasible_nodes_to_find` computes exactly the target the
claim describes. -/
theorem C6_num_feasible_nodes_to_find_spec (pct : Int) (n : Nat) :
    numFeasibleNodesToFind pct n = claimTargetCount pct n := by
  unfold numFeasibleNodesToFind claimTargetCount
  unfold min_feasible_nodes_percentage_to_find min_feasible_nodes_to_find
    default_percentage_of_nodes_to_score
  by_cases h1 : (n : Int) < 5 ∨ pct ≥ 100
  · simp only [if_pos h1]
  · simp only [if_neg h1]
    push_cast
    by_cases h2 : pct ≤ 0
    · have h2' : ¬ pct > 0 := by omega
      simp only [if_pos h2, if_neg h2']
      by_cases h3 : (50 : ℚ) - (n : ℚ) / 125 < 5
      · simp only [if_pos h3, max_eq_right (le_of_lt h3)]
      · simp only [if_neg h3, max_eq_left (le_of_not_lt h3)]
    · have h2' : pct > 0 := by omega
      simp only [if_neg h2, if_pos h2']

/-- `image_states[img].num_nodes` read through the context, for stating the
cache invariant. -/
def numNodesOf (ctx : ClusterState) (img : Str) : Option Nat :=
  match lookupA ctx.image_states img with
  | some (some st) => some st.num_nodes
  | _ => none

/-- The number of node entries of `images_on_nodes` whose cache holds the
key `img` (node names are unique, so this is the count of distinct nodes
caching `img`). -/
def cacheCount (ctx : ClusterState) (img : Str) : Nat :=
  (ctx.images_on_nodes.filter (fun p => hasKey p.2 img)).length

/-- Failing input for claim C1: a context knowing the tagged image
`"a:1"`, one empty node, and a pod with a single container using that
image, placed twice on the same node. -/
def nodeC1 : Node :=
  ⟨"n1".data, ⟨1000, 1073741824⟩, [], []⟩

/-- The pod of claim C1's failing input. -/
def podC1 : Pod :=
  ⟨"p1".data, [⟨"a:1".data, []⟩], []⟩

/-- The context of claim C1's failing input. -/
def ctxC1 : ClusterState :=
  ⟨[("a:1".data, some ⟨[("amd64".data, 10)], 0⟩)], [], [], [nodeC1]⟩

/-- Claim C1 evaluated at the failing input: placing two pods with the same
(already normalized) image on the same node drives `num_nodes` to 2 even
though exactly one distinct node holds the image in `images_on_nodes`, so
the claimed invariant and the claimed membership guard are both violated by
`place_pod_on_node`, which increments unconditionally. -/
theorem C1_place_pod_on_node_increments_unconditionally :
    ∃ s1 s2 : ClusterState × Node,
      place_pod_on_node ctxC1 podC1 nodeC1 = Except.ok s1 ∧
      place_pod_on_node s1.1 podC1 s1.2 = Except.ok s2 ∧
      numNodesOf s2.1 "a:1".data = some 2 ∧
      cacheCount s2.1 "a:1".data = 1 :=
  ⟨_, _, rfl, rfl, rfl, rfl⟩

/-- Failing input for claim C2: a container with an explicit `"memory"`
request of 500 MiB (and no `"mem"` key). -/
def nodeC2 : Node :=
  ⟨"n1".data, ⟨1000, 1073741824⟩, [], []⟩

/-- The pod of claim C2's failing input. -/
def podC2 : Pod :=
  ⟨"p2".data, [⟨"b:1".data, [("cpu".data, 100), ("memory".data, 500 * 1024 * 1024)]⟩], []⟩

/-- The context of claim C2's failing input. -/
def ctxC2 : ClusterState :=
  ⟨[("b:1".data, some ⟨[("amd64".data, 10)], 0⟩)], [], [], [nodeC2]⟩

/-- Claim C2 evaluated at the failing input: `place_pod_on_node` reads the
memory request under the key `'mem'`, so a container stating an explicit
`"memory"` request of 500 MiB is charged the 200 MiB default instead; the
cpu deduction and the pod append behave as claimed. -/
theorem C2_place_pod_on_node_uses_mem_key :
    ∃ s : ClusterState × Node,
      place_pod_on_node ctxC2 podC2 nodeC2 = Except.ok s ∧
      s.2.allocatable.cpu_millis = 1000 - 100 ∧
      s.2.allocatable.memory = 1073741824 - 200 * 1024 * 1024 ∧
      s.2.allocatable.memory ≠ 1073741824 - 500 * 1024 * 1024 ∧
      s.2.pods = [podC2] :=
  ⟨_, rfl, rfl, rfl, by decide, rfl⟩

/-- `ClusterContext.__init__`'s `image_states` (`clustercontext.py` lines
27-43): the three pre-populated workflow images. -/
def defaultImageStates : List (Str × Option ImageState) :=
  [("alexrashed/ml-wf-1-pre:0.33".data,
    some ⟨[("arm".data, 461473086), ("arm64".data, 538015840), ("amd64".data, 530300745)], 0⟩),
   ("alexrashed/ml-wf-2-train:0.33".data,
    some ⟨[("arm".data, 506029298), ("arm64".data, 582828211), ("amd64".data, 547365470)], 0⟩),
   ("alexrashed/ml-wf-3-serve:0.33".data,
    some ⟨[("arm".data, 506769993), ("arm64".data, 585625232), ("amd64".data, 585928717)], 0⟩)]

/-- Claim C7 evaluated at the failing input: `"redis:latest"` is not a key
of the default `image_states`, and `get_image_state` fails with the
key-lookup error (`self.image_states[image_name]` raises `KeyError`);
`retrieve_image_state` is never reached, so no unsupported-image-query
error surfaces. -/
theorem C7_get_image_state_raises_key_error :
    hasKey defaultImageStates "redis:latest".data = false ∧
    get_image_state defaultImageStates "redis:latest".data =
      Except.error CtxError.keyError ∧
    CtxError.keyError ≠ CtxError.retrieveFailed :=
  ⟨rfl, rfl, by decide⟩

/-- The node of claim C3's failing input. -/
def nodeC3 : Node :=
  ⟨"n1".data, ⟨1000, 1073741824⟩, [], []⟩

/-- The pod of claim C3's failing input: its only container names the image
`"redis"` without an explicit tag. -/
def podC3 : Pod :=
  ⟨"p3".data, [⟨"redis".data, [("cpu".data, 100), ("memory".data, 200 * 1024 * 1024)]⟩], []⟩

/-- The context of claim C3's failing input: the normalized image
`"redis:latest"` is known, the node's cache is empty. -/
def ctxC3 : ClusterState :=
  ⟨[("redis:latest".data, some ⟨[("amd64".data, 5)], 0⟩)], [], [], [nodeC3]⟩

/-- Claim C3 evaluated at the failing input: the schedule call picks the
node and reports `needed_images = ["redis:latest"]` (part (i) of the claim,
computed over normalized names), but after the commit the node's cache
holds the raw key `"redis"` and not the normalized `"redis:latest"`,
because `place_pod_on_node` stores `container.image` unnormalized. -/
theorem C3_schedule_caches_raw_image_name :
    ∃ r : SchedulingResult × ClusterState × Nat,
      schedule [podFitsResources] [] 100 0 ctxC3 podC3 = some r ∧
      r.1.needed_images = some ["redis:latest".data] ∧
      (∃ h, r.1.suggested_host = some h ∧ h.name = "n1".data) ∧
      hasKey ((lookupA r.2.1.images_on_nodes "n1".data).getD []) "redis".data = true ∧
      hasKey ((lookupA r.2.1.images_on_nodes "n1".data).getD []) "redis:latest".data = false :=
  ⟨_, rfl, rfl, ⟨_, rfl, rfl⟩, rfl, rfl⟩

/-- The download volume as the claim states it: the sum of the image sizes
for the given architecture over exactly those containers whose normalized
image is not in the node's cache. -/
def claimDownloadBytes (states : List (Str × Option ImageState))
    (cache : List (Str × Str)) (containers : List Container) (arch : Str) : Nat :=
  ((containers.filter
      (fun c => !hasKey cache (normalize_image_name c.image))).map
    (fun c =>
      match lookupA states (normalize_image_name c.image) with
      | some (some st) => lookupD st.size arch 0
      | _ => 0)).sum

theorem le_foldl_max (l : List Int) (b : Int) : b ≤ l.foldl max b := by
  induction l generalizing b with
  | nil => exact le_refl b
  | cons x xs ih => exact le_trans (le_max_left b x) (ih (max b x))

theorem mem_le_foldl_max (l : List Int) (b x : Int) (h : x ∈ l) : x ≤ l.foldl max b := by
  induction l generalizing b with
  | nil => cases h
  | cons y ys ih =>
    rcases List.mem_cons.mp h with rfl | hm
    · exact le_trans (le_max_right b x) (le_foldl_max ys (max b x))
    · exact ih (max b y) hm

theorem le_pyMax (l : List Int) (d x : Int) (h : x ∈ l) : x ≤ pyMax l d := by
  cases l with
  | nil => cases h
  | cons y ys =>
    rcases List.mem_cons.mp h with rfl | hm
    · exact le_foldl_max ys x
    · exact mem_le_foldl_max ys y x hm

theorem pyMax_nonneg (l : List Int) (h : ∀ x ∈ l, 0 ≤ x) : 0 ≤ pyMax l 0 := by
  cases l with
  | nil => exact le_refl 0
  | cons y ys =>
    exact le_trans (h y (List.mem_cons_self y ys)) (le_foldl_max ys y)

theorem foldl_min_nonneg (l : List Int) (b : Int) (hb : 0 ≤ b)
    (h : ∀ x ∈ l, 0 ≤ x) : 0 ≤ l.foldl min b := by
  induction l generalizing b with
  | nil => exact hb
  | cons y ys ih =>
    exact ih (min b y) (le_min hb (h y (List.mem_cons_self y ys)))
      (fun x hx => h x (List.mem_cons_of_mem y hx))

theorem pyMin_nonneg (l : List Int) (h : ∀ x ∈ l, 0 ≤ x) : 0 ≤ pyMin l 0 := by
  cases l with
  | nil => exact le_refl 0
  | cons y ys =>
    exact foldl_min_nonneg ys y (h y (List.mem_cons_self y ys))
      (fun x hx => h x (List.mem_cons_of_mem y hx))

theorem getSizeLoop_spec (states : List (Str × Option ImageState))
    (cache : List (Str × Str)) (arch : Str) (cs : List Container) (acc : Nat)
    (h : ∀ c ∈ cs,
      hasKey cache (normalize_image_name c.image) = false →
      ∃ st, lookupA states (normalize_image_name c.image) = some (some st) ∧
        hasKey st.size arch = true) :
    getSizeLoop states cache cs arch acc =
      Except.ok (acc + claimDownloadBytes states cache cs arch) := by
  induction cs generalizing acc with
  | nil => simp [getSizeLoop, claimDownloadBytes]
  | cons c rest ih =>
    by_cases hc : hasKey cache (normalize_image_name c.image) = true
    · have e1 : getSizeLoop states cache (c :: rest) arch acc =
          getSizeLoop states cache rest arch acc := by
        simp [getSizeLoop, hc]
      have e2 : claimDownloadBytes states cache (c :: rest) arch =
          claimDownloadBytes states cache rest arch := by
        simp [claimDownloadBytes, List.filter_cons, hc]
      rw [e1, e2, ih acc (fun d hd => h d (List.mem_cons_of_mem c hd))]
    · have hc' : hasKey cache (normalize_image_name c.image) = false := by
        cases hk : hasKey cache (normalize_image_name c.image)
        · rfl
        · exact absurd hk hc
      obtain ⟨st, hst, hsz⟩ := h c (List.mem_cons_self c rest) hc'
      have e1 : getSizeLoop states cache (c :: rest) arch acc =
          getSizeLoop states cache rest arch (acc + lookupD st.size arch 0) := by
        simp [getSizeLoop, hc', get_image_state, hst, hsz]
      have e2 : claimDownloadBytes states cache (c :: rest) arch =
          lookupD st.size arch 0 + claimDownloadBytes states cache rest arch := by
        simp [claimDownloadBytes, List.filter_cons, hc', hst]
      rw [e1, e2, ih (acc + lookupD st.size arch 0)
        (fun d hd => h d (List.mem_cons_of_mem c hd))]
      congr 1
      omega

/-- Claim C5: for `LatencyAwareImageLocalityPriority`, (i) the raw mapped
score is the floor of the un-cached image bytes for the node's architecture
divided by the registry-to-node bandwidth, and (ii) `reduce_mapped_score`
maps a raw-score vector to the all-zero vector when its max is 0 and
otherwise to `floor(max_priority * (max - x + min) / max)` pointwise. -/
theorem C5_latency_aware_image_locality_spec
    (ctx : ClusterState) (pod : Pod) (node : Node) (arch : Str) (bw : Nat)
    (scores : List Int)
    (harch : lookupA node.labels "beta.kubernetes.io/arch".data = some arch)
    (himg : ∀ c ∈ pod.containers,
      hasKey ((lookupA ctx.images_on_nodes node.name).getD [])
        (normalize_image_name c.image) = false →
      ∃ st, lookupA ctx.image_states (normalize_image_name c.image) = some (some st) ∧
        hasKey st.size arch = true)
    (hbw : get_dl_bandwidth ctx.bandwidth "registry".data node.name = Except.ok bw)
    (hbw0 : bw ≠ 0)
    (hpos : ∀ x ∈ scores, 0 ≤ x) :
    latencyMapNodeScore ctx pod node = Except.ok
      (claimDownloadBytes ctx.image_states
        ((lookupA ctx.images_on_nodes node.name).getD []) pod.containers arch / bw)
    ∧ localityReduce scores =
      (if pyMax scores 0 = 0 then List.replicate scores.length 0
       else scores.map (fun x =>
        max_priority * (pyMax scores 0 - x + pyMin scores 0) / pyMax scores 0)) := by
  constructor
  · have hsize : latencyGetSize ctx pod node = Except.ok
        (claimDownloadBytes ctx.image_states
          ((lookupA ctx.images_on_nodes node.name).getD []) pod.containers arch) := by
      unfold latencyGetSize
      rw [harch]
      have hz := getSizeLoop_spec ctx.image_states
        ((lookupA ctx.images_on_nodes node.name).getD []) arch pod.containers 0 himg
      rw [Nat.zero_add] at hz
      exact hz
    unfold latencyMapNodeScore
    simp [hsize, hbw, hbw0]
  · unfold localityReduce
    by_cases hmx : pyMax scores 0 = 0
    · rw [if_pos hmx, if_pos hmx]
    · rw [if_neg hmx, if_neg hmx]
      refine List.map_congr_left (fun x hx => ?_)
      have h1 : 0 ≤ pyMax scores 0 := pyMax_nonneg scores hpos
      have h2 : 0 ≤ pyMin scores 0 := pyMin_nonneg scores hpos
      have h3 : x ≤ pyMax scores 0 := le_pyMax scores 0 x hx
      have h4 : 0 ≤ max_priority * (pyMax scores 0 - x + pyMin scores 0) := by
        have : (0 : Int) ≤ pyMax scores 0 - x + pyMin scores 0 := by omega
        have hmp : (0 : Int) ≤ max_priority := by decide
        exact mul_nonneg hmp this
      exact Int.tdiv_eq_ediv h4 h1

/-- Concrete node for claim C5's witness. -/
def nodeW5 : Node :=
  ⟨"n1".data, ⟨1000, 1073741824⟩, [("beta.kubernetes.io/arch".data, "amd64".data)], []⟩

/-- Concrete pod for claim C5's witness. -/
def podW5 : Pod :=
  ⟨"p5".data, [⟨"img:1".data, []⟩], []⟩

/-- Concrete context for claim C5's witness. -/
def ctxW5 : ClusterState :=
  ⟨[("img:1".data, some ⟨[("amd64".data, 100)], 0⟩)], [],
   [("registry".data, [("n1".data, 10)])], [nodeW5]⟩

/-- Witness for claim C5 at a concrete context, pod, node, bandwidth 10 and
raw-score vector `[0, 2]`. -/
theorem C5_latency_aware_witness :
    (lookupA nodeW5.labels "beta.kubernetes.io/arch".data = some "amd64".data) ∧
    (∀ c ∈ podW5.containers,
      hasKey ((lookupA ctxW5.images_on_nodes nodeW5.name).getD [])
        (normalize_image_name c.image) = false →
      ∃ st, lookupA ctxW5.image_states (normalize_image_name c.image) = some (some st) ∧
        hasKey st.size "amd64".data = true) ∧
    (get_dl_bandwidth ctxW5.bandwidth "registry".data nodeW5.name = Except.ok 10) ∧
    ((10 : Nat) ≠ 0) ∧
    (∀ x ∈ ([0, 2] : List Int), 0 ≤ x) ∧
    (latencyMapNodeScore ctxW5 podW5 nodeW5 = Except.ok
        (claimDownloadBytes ctxW5.image_states
          ((lookupA ctxW5.images_on_nodes nodeW5.name).getD [])
          podW5.containers "amd64".data / 10)
      ∧ localityReduce [0, 2] =
        (if pyMax [0, 2] 0 = 0 then List.replicate ([0, 2] : List Int).length 0
         else ([0, 2] : List Int).map (fun x =>
          max_priority * (pyMax [0, 2] 0 - x + pyMin [0, 2] 0) / pyMax [0, 2] 0))) := by
  have himg : ∀ c ∈ podW5.containers,
      hasKey ((lookupA ctxW5.images_on_nodes nodeW5.name).getD [])
        (normalize_image_name c.image) = false →
      ∃ st, lookupA ctxW5.image_states (normalize_image_name c.image) = some (some st) ∧
        hasKey st.size "amd64".data = true := by
    intro c hc _
    rcases List.mem_singleton.mp hc with rfl
    exact ⟨⟨[("amd64".data, 100)], 0⟩, rfl, rfl⟩
  exact ⟨rfl, himg, rfl, by decide, by decide,
    C5_latency_aware_image_locality_spec ctxW5 podW5 nodeW5 "amd64".data 10 [0, 2]
      rfl himg rfl (by decide) (by decide)⟩

theorem mem_rotateFrom (nodes : List Node) (i : Nat) (x : Node)
    (h : x ∈ rotateFrom nodes i) : x ∈ nodes := by
  unfold rotateFrom at h
  rcases List.mem_append.mp h with h1 | h1
  · exact List.mem_of_mem_drop h1
  · exact List.mem_of_mem_take h1

theorem scoreLoop_nil_feasible (ctx : ClusterState) (pod : Pod)
    (ps : List (Int × PriorityImpl))
    (hred : ∀ wp ∈ ps, (wp.2.reduceScore ctx pod [] []).isSome = true) :
    scoreLoop ctx pod [] ps [] = some [] := by
  induction ps with
  | nil => rfl
  | cons wp rest ih =>
    obtain ⟨w, p⟩ := wp
    obtain ⟨r, hr⟩ := Option.isSome_iff_exists.mp (hred (w, p) (List.mem_cons_self _ rest))
    have hr2 : p.reduceScore ctx pod [] [] = some r := hr
    simp only [scoreLoop,
      show optionMapList (p.mapScore ctx pod) ([] : List Node) = some [] from rfl, hr2,
      List.zipWith_nil_right]
    exact ih (fun x hx => hred x (List.mem_cons_of_mem (w, p) hx))

/-- Claim C4: whenever no node passes the predicates (in particular for an
empty cluster), `schedule` returns `SchedulingResult(None, 0, None)` without
raising, and leaves the context and the cursor untouched.  (The reduce
steps are invoked on empty vectors, so the hypothesis demands only that
they do not themselves raise there, which holds for every shipped
priority.) -/
theorem C4_schedule_no_feasible_returns_null
    (preds : List (ClusterState → Pod → Node → Bool))
    (priorities : List (Int × PriorityImpl)) (pct : Int) (cursor : Nat)
    (ctx : ClusterState) (pod : Pod)
    (hfeas : ∀ n ∈ ctx.nodes, passesPredicates preds ctx pod n = false)
    (hred : ∀ wp ∈ priorities, (wp.2.reduceScore ctx pod [] []).isSome = true) :
    schedule preds priorities pct cursor ctx pod =
      some (⟨none, 0, none⟩, ctx, cursor) := by
  have hfilter : (rotateFrom ctx.nodes cursor).filter (passesPredicates preds ctx pod) = [] := by
    rw [List.filter_eq_nil_iff]
    intro a ha
    simp [hfeas a (mem_rotateFrom ctx.nodes cursor a ha)]
  simp only [schedule]
  rw [hfilter]
  simp only [List.take_nil, List.getLast?_nil, List.length_nil, List.replicate,
    List.zip_nil_left]
  rw [scoreLoop_nil_feasible ctx pod priorities hred]
  rfl

/-- Concrete pod for claim C4's witness. -/
def podW4 : Pod :=
  ⟨"p4".data, [⟨"img:1".data, []⟩], []⟩

/-- Concrete empty-cluster context for claim C4's witness. -/
def ctxW4 : ClusterState :=
  ⟨[], [], [], []⟩

/-- Witness for claim C4 on the empty cluster (spec scenario S1). -/
theorem C4_schedule_witness :
    (∀ n ∈ ctxW4.nodes, passesPredicates [podFitsResources] ctxW4 podW4 n = false) ∧
    (∀ wp ∈ ([] : List (Int × PriorityImpl)),
      (wp.2.reduceScore ctxW4 podW4 [] []).isSome = true) ∧
    schedule [podFitsResources] [] 100 0 ctxW4 podW4 =
      some (⟨none, 0, none⟩, ctxW4, 0) := by
  have h1 : ∀ n ∈ ctxW4.nodes, passesPredicates [podFitsResources] ctxW4 podW4 n = false := by
    intro n hn
    cases hn
  have h2 : ∀ wp ∈ ([] : List (Int × PriorityImpl)),
      (wp.2.reduceScore ctxW4 podW4 [] []).isSome = true := by
    intro wp hw
    cases hw
  exact ⟨h1, h2, C4_schedule_no_feasible_returns_null [podFitsResources] [] 100 0 ctxW4 podW4 h1 h2⟩

theorem optionMapList_length {α β : Type} (f : α → Option β) (l : List α)
    (out : List β) (h : optionMapList f l = some out) : out.length = l.length := by
  induction l generalizing out with
  | nil =>
    simp only [optionMapList] at h
    cases h
    rfl
  | cons a rest ih =>
    simp only [optionMapList] at h
    cases hf : f a with
    | none => rw [hf] at h; cases h
    | some b =>
      rw [hf] at h
      cases hr : optionMapList f rest with
      | none => rw [hr] at h; cases h
      | some bs =>
        rw [hr] at h
        cases h
        simp [ih bs hr]

theorem scoreLoop_length (ctx : ClusterState) (pod : Pod) (feasible : List Node)
    (ps : List (Int × PriorityImpl)) (scored out : List Int)
    (hlen : ∀ wp ∈ ps, ∀ ns scores r,
      wp.2.reduceScore ctx pod ns scores = some r → r.length = scores.length)
    (hsc : scored.length = feasible.length)
    (h : scoreLoop ctx pod feasible ps scored = some out) :
    out.length = feasible.length := by
  induction ps generalizing scored with
  | nil =>
    simp only [scoreLoop] at h
    cases h
    exact hsc
  | cons wp rest ih =>
    obtain ⟨w, p⟩ := wp
    simp only [scoreLoop] at h
    cases hm : optionMapList (p.mapScore ctx pod) feasible with
    | none =>
      simp only [hm] at h
      cases h
    | some mapped =>
      simp only [hm] at h
      cases hrd : p.reduceScore ctx pod feasible mapped with
      | none =>
        simp only [hrd] at h
        cases h
      | some reduced =>
        simp only [hrd] at h
        have hml : mapped.length = feasible.length := optionMapList_length _ _ _ hm
        have hrl : reduced.length = mapped.length :=
          hlen (w, p) (List.mem_cons_self _ rest) feasible mapped reduced hrd
        refine ih _ (fun x hx => hlen x (List.mem_cons_of_mem (w, p) hx)) ?_ h
        rw [List.length_zipWith, List.length_map]
        omega

theorem placeLoop_preserves (cs : List Container) (ctx : ClusterState) (node : Node)
    (ctx2 : ClusterState) (node2 : Node)
    (h : placeLoop cs ctx node = Except.ok (ctx2, node2)) :
    ctx2.nodes = ctx.nodes ∧ node2.name = node.name := by
  induction cs generalizing ctx node with
  | nil =>
    simp only [placeLoop] at h
    cases h
    exact ⟨rfl, rfl⟩
  | cons c rest ih =>
    simp only [placeLoop] at h
    cases hg : get_image_state ctx.image_states (normalize_image_name c.image) with
    | error e =>
      simp only [hg] at h
      cases h
    | ok st =>
      simp only [hg] at h
      have hres := ih _ _ h
      exact ⟨hres.1, hres.2⟩

theorem place_pod_on_node_nodes (ctx : ClusterState) (pod : Pod) (node : Node)
    (ctx2 : ClusterState) (node2 : Node)
    (h : place_pod_on_node ctx pod node = Except.ok (ctx2, node2)) :
    node2.name = node.name ∧
    ctx2.nodes = ctx.nodes.map (fun m => if m.name == node.name then node2 else m) := by
  unfold place_pod_on_node at h
  cases hp : placeLoop pod.containers ctx node with
  | error e =>
    simp only [hp] at h
    cases h
  | ok pr =>
    obtain ⟨ctxm, nodem⟩ := pr
    simp only [hp] at h
    obtain ⟨hn, hname⟩ := placeLoop_preserves pod.containers ctx node ctxm nodem hp
    cases h
    constructor
    · exact hname
    · simp [hn]

theorem forall2_map_self {α : Type} (l : List α) (f : α → α)
    (R : α → α → Prop) (h : ∀ a ∈ l, R a (f a)) :
    List.Forall₂ R l (l.map f) := by
  induction l with
  | nil => exact List.Forall₂.nil
  | cons a rest ih =>
    exact List.Forall₂.cons (h a (List.mem_cons_self a rest))
      (ih (fun x hx => h x (List.mem_cons_of_mem a hx)))

theorem maxByScoreFirst_eq_none (l : List (Node × Int))
    (h : maxByScoreFirst l = none) : l = [] := by
  cases l with
  | nil => rfl
  | cons x xs => simp [maxByScoreFirst] at h

/-- Claim C10: a `schedule` call that completes mutates at most one node —
every node other than the suggested host is returned unchanged (same
allocatable capacity, same pod list) — and a call returning a null
suggested host leaves the cluster state (hence every node) and the
round-robin cursor untouched.  The hypothesis asks that each configured
priority's reduce step be length-preserving, which holds for every shipped
priority. -/
theorem C10_schedule_frame
    (preds : List (ClusterState → Pod → Node → Bool))
    (priorities : List (Int × PriorityImpl)) (pct : Int) (cursor : Nat)
    (ctx : ClusterState) (pod : Pod) (r : SchedulingResult)
    (ctx2 : ClusterState) (cursor2 : Nat)
    (hlen : ∀ wp ∈ priorities, ∀ ns scores out,
      wp.2.reduceScore ctx pod ns scores = some out → out.length = scores.length)
    (hrun : schedule preds priorities pct cursor ctx pod = some (r, ctx2, cursor2)) :
    (∀ h, r.suggested_host = some h →
      List.Forall₂ (fun a b => b.name ≠ h.name → b = a) ctx.nodes ctx2.nodes)
    ∧ (r.suggested_host = none → ctx2 = ctx ∧ cursor2 = cursor) := by
  simp only [schedule] at hrun
  set F := (List.filter (passesPredicates preds ctx pod)
    (rotateFrom ctx.nodes cursor)).take
      ((numFeasibleNodesToFind pct ctx.nodes.length).toNat) with hF
  cases hsl : scoreLoop ctx pod F priorities (List.replicate F.length 0) with
  | none =>
    simp only [hsl] at hrun
    cases hrun
  | some scored =>
    simp only [hsl] at hrun
    have hslen : scored.length = F.length :=
      scoreLoop_length ctx pod F priorities _ scored hlen (by simp) hsl
    cases hmx : maxByScoreFirst (List.zip F scored) with
    | none =>
      simp only [hmx] at hrun
      have hz : List.zip F scored = [] := maxByScoreFirst_eq_none _ hmx
      have hFnil : F = [] := by
        cases hFc : F with
        | nil => rfl
        | cons f fs =>
          rw [hFc] at hslen hz
          cases scored with
          | nil => simp at hslen
          | cons s ss => simp [List.zip_cons_cons] at hz
      rw [hFnil] at hrun
      simp only [List.getLast?_nil, List.length_nil, Option.some.injEq,
        Prod.mk.injEq] at hrun
      obtain ⟨hr, hc, hcur⟩ := hrun
      subst hr hc hcur
      constructor
      · intro h hh
        cases hh
      · intro _
        exact ⟨rfl, rfl⟩
    | some best =>
      simp only [hmx] at hrun
      cases hpl : place_pod_on_node ctx pod best.1 with
      | error e =>
        simp only [hpl] at hrun
        cases hrun
      | ok pr =>
        obtain ⟨ctxp, hostp⟩ := pr
        simp only [hpl] at hrun
        simp only [Option.some.injEq, Prod.mk.injEq] at hrun
        obtain ⟨hr, hc, hcur⟩ := hrun
        subst hr hc hcur
        obtain ⟨hname, hnodes⟩ := place_pod_on_node_nodes ctx pod best.1 ctxp hostp hpl
        constructor
        · intro h hh
          simp only [Option.some.injEq] at hh
          subst hh
          rw [hnodes]
          refine forall2_map_self _ _ _ (fun a _ => ?_)
          by_cases hn : (a.name == best.1.name) = true
          · simp only [hn, if_true]
            intro hne
            exact absurd rfl hne
          · simp only [hn, if_false]
            intro _
            rfl
        · intro hnone
          cases hnone

/-- First node of claim C10's witness cluster. -/
def nodeW10a : Node :=
  ⟨"n1".data, ⟨1000, 1073741824⟩, [], []⟩

/-- Second node of claim C10's witness cluster. -/
def nodeW10b : Node :=
  ⟨"n2".data, ⟨1000, 1073741824⟩, [], []⟩

/-- Pod of claim C10's witness. -/
def podW10 : Pod :=
  ⟨"pw".data, [⟨"im:1".data, [("cpu".data, 100), ("memory".data, 100)]⟩], []⟩

/-- Context of claim C10's witness. -/
def ctxW10 : ClusterState :=
  ⟨[("im:1".data, some ⟨[("amd64".data, 7)], 0⟩)], [], [], [nodeW10a, nodeW10b]⟩

/-- The first node after the witness placement. -/
def nodeW10a' : Node :=
  ⟨"n1".data, ⟨900, 1073741824 - 200 * 1024 * 1024⟩, [], [podW10]⟩

/-- The context after the witness placement. -/
def ctxW10' : ClusterState :=
  ⟨[("im:1".data, some ⟨[("amd64".data, 7)], 1⟩)],
   [("n1".data, [("im:1".data, "im:1".data)])], [], [nodeW10a', nodeW10b]⟩

/-- The scheduling result of claim C10's witness run. -/
def resW10 : SchedulingResult :=
  ⟨some nodeW10a', 2, some ["im:1".data]⟩

/-- Witness for claim C10: a concrete two-node run in which the first node
is chosen and mutated while the second is returned unchanged. -/
theorem C10_schedule_frame_witness :
    (∀ wp ∈ ([] : List (Int × PriorityImpl)), ∀ ns scores out,
      wp.2.reduceScore ctxW10 podW10 ns scores = some out → out.length = scores.length) ∧
    schedule [podFitsResources] [] 100 0 ctxW10 podW10 = some (resW10, ctxW10', 0) ∧
    ((∀ h, resW10.suggested_host = some h →
        List.Forall₂ (fun a b => b.name ≠ h.name → b = a) ctxW10.nodes ctxW10'.nodes)
      ∧ (resW10.suggested_host = none → ctxW10' = ctxW10 ∧ (0 : Nat) = 0)) := by
  have h1 : ∀ wp ∈ ([] : List (Int × PriorityImpl)), ∀ ns scores out,
      wp.2.reduceScore ctxW10 podW10 ns scores = some out → out.length = scores.length := by
    intro wp hw
    cases hw
  have h2 : schedule [podFitsResources] [] 100 0 ctxW10 podW10 =
      some (resW10, ctxW10', 0) := rfl
  exact ⟨h1, h2,
    C10_schedule_frame [podFitsResources] [] 100 0 ctxW10 podW10 resW10 ctxW10' 0 h1 h2⟩
